import Mathlib

/-!
Verification of the table-reconstruction and document-assembly pipeline in
`src/utils.py` (functions `parse_cells`, `create_expanded_dataframe`,
`prepare_counter`, `clean_text`, `create_parsed_dictionary`).

The Python code is shallowly embedded: pure functions become Lean functions,
exceptions become `Except PyErr`, Python's ordered dict becomes an ordered
association list, and the two external collaborators (page-image rendering via
`pdf2image` and table detection via `textractor`) are modelled by a
per-element `serviceResult` field holding the outcome the collaborators would
have produced for that Table element.
-/

/-- The Python exception kinds the embedded code can raise.
`attributeError` models calling `.groups()` on a failed `re.match` (None);
`indexError` models a list index out of range; `valueError` models `max()`
over an empty sequence; `keyError` models reading a missing dict key;
`serviceError` models any exception raised by the external page-render or
table-detection collaborators. -/
inductive PyErr where
  | attributeError
  | indexError
  | valueError
  | keyError
  | serviceError
deriving DecidableEq, Repr

/-- Element categories dispatched on by `create_parsed_dictionary`. -/
inductive Category where
  | PageBreak
  | ListItem
  | NarrativeText
  | Table
  | Text
  | Title
deriving DecidableEq, Repr

/-- A parsed table cell, the 5-tuple `(row, col, rowspan, colspan, text)`
built by `parse_cells` (the header/merged flags are matched and discarded
by the source, as here). -/
structure Cell where
  row : Nat
  col : Nat
  rowspan : Nat
  colspan : Nat
  text : String
deriving DecidableEq, Repr

/-- One classified document element of the input stream.  `pageNumber`
models `metadata.page_number` (meaningful for Table elements);
`serviceResult` holds the outcome of the external render+detect round trip
for a Table element: on success, the list of detected tables, each a list of
raw cell strings (`str(cell)` of the detector's cell objects); on failure,
the exception the collaborator raised. -/
structure Element where
  category : Category
  text : String
  pageNumber : Nat
  serviceResult : Except PyErr (List (List String))

/-- The Document Assembler's running state inside `create_parsed_dictionary`:
the ordered page dictionary, the current page key, and the running page
number. -/
structure AssemblerState where
  parsed_doc : List (String × String)
  curr_page : String
  page_number : Nat
deriving DecidableEq, Repr

/-! ## Text normalizer: `clean_text` (utils.py lines 172-190) -/

/-- The ASCII whitespace characters recognized by Python's `str.split()` and
`str.strip()` (the inputs here contain no non-ASCII whitespace). -/
def pyIsSpace (c : Char) : Bool :=
  c = ' ' || c = '\t' || c = '\n' || c = '\x0b' || c = '\x0c' || c = '\r'

/-- Helper for `pySplit`: walks the characters with the (reversed) current
token as accumulator, emitting a token at each whitespace run boundary. -/
def pySplitAux : List Char → List Char → List (List Char)
  | [], acc => if acc.isEmpty then [] else [acc.reverse]
  | c :: cs, acc =>
      if pyIsSpace c then
        if acc.isEmpty then pySplitAux cs []
        else acc.reverse :: pySplitAux cs []
      else pySplitAux cs (c :: acc)

/-- Python `text.split()` with no arguments: the maximal whitespace-free
runs of the string, in order; empty runs are not produced. -/
def pySplit (l : List Char) : List (List Char) := pySplitAux l []

/-- Python `' '.join(tokens)`. -/
def pyJoin : List (List Char) → List Char
  | [] => []
  | [t] => t
  | t :: ts => t ++ ' ' :: pyJoin ts

/-- Python `text.strip()`: drop leading and trailing whitespace. -/
def pyStrip (l : List Char) : List Char :=
  ((l.dropWhile pyIsSpace).reverse.dropWhile pyIsSpace).reverse

/-- Python `text.replace('\n', ' ')`. -/
def replaceNl (l : List Char) : List Char :=
  l.map (fun c => if c = '\n' then ' ' else c)

/-- The character-level body of `clean_text` for string input:
`text.replace('\n',' ')`, then `' '.join(text.split())`, then `.strip()`. -/
def cleanChars (l : List Char) : List Char :=
  pyStrip (pyJoin (pySplit (replaceNl l)))

/-- `clean_text` restricted to string input. -/
def cleanTextStr (s : String) : String := String.mk (cleanChars s.data)

/-- A dynamically typed Python value as far as `clean_text` can observe it:
either a string or anything else. -/
inductive PyVal (α : Type) where
  | str (s : String)
  | other (a : α)
deriving DecidableEq

/-- `clean_text` (utils.py lines 172-190): normalize a string, pass any
non-string value through unchanged. -/
def clean_text {α : Type} : PyVal α → PyVal α
  | PyVal.str s => PyVal.str (cleanTextStr s)
  | PyVal.other a => PyVal.other a

/-! ## Cell parsing: `parse_cells` (utils.py lines 67-92) -/

/-- Consume an exact literal prefix, returning the rest of the input. -/
def expectChars : List Char → List Char → Option (List Char)
  | [], l => some l
  | _ :: _, [] => none
  | c :: cs, d :: ds => if d = c then expectChars cs ds else none

/-- Numeric value of a digit run. -/
def natOfDigits (ds : List Char) : Nat :=
  ds.foldl (fun n c => 10 * n + (c.toNat - '0'.toNat)) 0

/-- Consume one or more decimal digits (the regex group `(\d+)`, which is
greedy and here never needs backtracking since each group is followed by a
non-digit literal). -/
def parseNat1 (l : List Char) : Option (Nat × List Char) :=
  let ds := l.takeWhile Char.isDigit
  let rest := l.dropWhile Char.isDigit
  if ds.isEmpty then none else some (natOfDigits ds, rest)

/-- Consume the regex alternation `(True|False)`. -/
def parsePyBool (l : List Char) : Option (Bool × List Char) :=
  match expectChars "True".data l with
  | some rest => some (true, rest)
  | none =>
      match expectChars "False".data l with
      | some rest => some (false, rest)
      | none => none

/-- `re.match` of the pattern
`<Cell: \((\d+),(\d+)\), Span: \((\d+), (\d+)\), Column Header: (True|False), MergedCell: (True|False)>`
against the start of the string (trailing characters are allowed, as with
`re.match`); yields the four numeric groups. -/
def matchCellPattern (l : List Char) : Option (Nat × Nat × Nat × Nat) := do
  let l ← expectChars "<Cell: (".data l
  let (row, l) ← parseNat1 l
  let l ← expectChars ",".data l
  let (col, l) ← parseNat1 l
  let l ← expectChars "), Span: (".data l
  let (rs, l) ← parseNat1 l
  let l ← expectChars ", ".data l
  let (cs, l) ← parseNat1 l
  let l ← expectChars "), Column Header: ".data l
  let (_, l) ← parsePyBool l
  let l ← expectChars ", MergedCell: ".data l
  let (_, l) ← parsePyBool l
  let _ ← expectChars ">".data l
  pure (row, col, rs, cs)

/-- `str(cell).split('>')[1].strip()`: the characters strictly between the
first `>` and the following `>` (or the end), stripped; `none` when the
string holds no `>` at all (then `[1]` would be an IndexError). -/
def cellTextChars (l : List Char) : Option (List Char) :=
  match l.dropWhile (fun c => !(c = '>')) with
  | [] => none
  | _ :: rest => some (pyStrip (rest.takeWhile (fun c => !(c = '>'))))

/-- Parse one raw cell string: a failed `re.match` makes `.groups()` raise
AttributeError; a (theoretically) missing `>` makes `split('>')[1]` raise
IndexError. -/
def parseOneCell (raw : String) : Except PyErr Cell :=
  match matchCellPattern raw.data with
  | none => Except.error PyErr.attributeError
  | some (r, c, rs, cs) =>
      match cellTextChars raw.data with
      | none => Except.error PyErr.indexError
      | some t => Except.ok (Cell.mk r c rs cs (String.mk t))

/-- `parse_cells` (utils.py lines 67-92): parse each raw cell in order; the
first malformed record raises out of the loop. -/
def parse_cells (raws : List String) : Except PyErr (List Cell) :=
  raws.mapM parseOneCell

/-! ## Grid expansion: `create_expanded_dataframe` (utils.py lines 95-126) -/

/-- Resolve a Python list index against a list of length `n`: indices in
`[0, n)` are used directly, indices in `[-n, 0)` wrap from the end, anything
else is an IndexError. -/
def pyIndex (n : Nat) (i : Int) : Option Nat :=
  if 0 ≤ i ∧ i < (n : Int) then some i.toNat
  else if -(n : Int) ≤ i ∧ i < 0 then some (i + n).toNat
  else none

/-- Python `l[i]` on a list. -/
def pyListGet {α : Type} (l : List α) (i : Int) (dflt : α) : Except PyErr α :=
  match pyIndex l.length i with
  | some k => Except.ok (l.getD k dflt)
  | none => Except.error PyErr.indexError

/-- Python `l[i] = v` on a list. -/
def pyListSet {α : Type} (l : List α) (i : Int) (v : α) : Except PyErr (List α) :=
  match pyIndex l.length i with
  | some k => Except.ok (l.set k v)
  | none => Except.error PyErr.indexError

/-- Python `table[i][j] = v`: fetch row `i`, assign position `j` in it, and
store the updated row back at the same index. -/
def pySet2 (g : List (List String)) (i j : Int) (v : String) :
    Except PyErr (List (List String)) := do
  let rw ← pyListGet g i []
  let rw2 ← pyListSet rw j v
  pyListSet g i rw2

/-- The inner double loop of `create_expanded_dataframe` for one cell:
`for r in range(rowspan): for c in range(colspan): table[row-1+r][col-1+c] = text`. -/
def applyCell (cl : Cell) (g : List (List String)) :
    Except PyErr (List (List String)) :=
  (List.range cl.rowspan).foldlM (fun g (r : Nat) =>
    (List.range cl.colspan).foldlM (fun g (c : Nat) =>
      pySet2 g ((cl.row : Int) - 1 + (r : Int)) ((cl.col : Int) - 1 + (c : Int)) cl.text) g) g

/-- `max(cell[0] for cell in cells)` (over a nonempty list; rows are
nonnegative, so folding from 0 computes the same maximum). -/
def maxRow (cells : List Cell) : Nat :=
  cells.foldl (fun m cl => max m cl.row) 0

/-- `max(cell[1] for cell in cells)`. -/
def maxCol (cells : List Cell) : Nat :=
  cells.foldl (fun m cl => max m cl.col) 0

/-- The grid-building core of `create_expanded_dataframe` (utils.py lines
112-120): size the table by the maximum anchor row/column, initialize with
empty strings, then apply every cell's footprint in input order.  `max()`
over the empty sequence raises ValueError. -/
def expandGrid (cells : List Cell) : Except PyErr (List (List String)) :=
  match cells with
  | [] => Except.error PyErr.valueError
  | _ :: _ =>
      let init := List.replicate (maxRow cells) (List.replicate (maxCol cells) "")
      cells.foldlM (fun g cl => applyCell cl g) init

/-- `create_expanded_dataframe` (utils.py lines 95-126): build the grid,
then model the pandas step `df.columns = df.iloc[0]; df = df.drop(0)`:
row 0 becomes the column labels and the remaining rows the data; `iloc[0]`
on a zero-row frame raises IndexError. -/
def create_expanded_dataframe (cells : List Cell) :
    Except PyErr (List String × List (List String)) := do
  let g ← expandGrid cells
  match g with
  | [] => Except.error PyErr.indexError
  | h :: t => Except.ok (h, t)

/-- Models the external `pandas.DataFrame.to_markdown(index=False)` call
(third-party tabulate rendering).  No verified claim depends on the exact
rendered text, only on the pipeline around it. -/
def toMarkdown (cols : List String) (rows : List (List String)) : String :=
  let rowLine := fun (cs : List String) => "| " ++ String.intercalate " | " cs ++ " |"
  let sep := "|" ++ String.intercalate "|" (cols.map (fun _ => "---")) ++ "|"
  String.intercalate "\n" (rowLine cols :: sep :: rows.map rowLine)

/-! ## Ordered dictionary (Python `dict`) -/

/-- Python `d[k] = v` on an insertion-ordered dict: update the first (only)
binding of `k` in place, or append a new binding at the end. -/
def dictSet : List (String × String) → String → String → List (String × String)
  | [], k, v => [(k, v)]
  | (k', v') :: rest, k, v =>
      if k' = k then (k, v) :: rest else (k', v') :: dictSet rest k v

/-- Python `d.get(k)`: the value bound to `k`, if any. -/
def dictGet? : List (String × String) → String → Option String
  | [], _ => none
  | (k', v') :: rest, k => if k' = k then some v' else dictGet? rest k

/-- Python `d[k] += x`: read (KeyError when absent), concatenate, store. -/
def dictAppend (d : List (String × String)) (k x : String) :
    Except PyErr (List (String × String)) :=
  match dictGet? d k with
  | none => Except.error PyErr.keyError
  | some v => Except.ok (dictSet d k (v ++ x))

/-! ## Repetition counter and Document Assembler (utils.py lines 146-278) -/

/-- `prepare_counter` (utils.py lines 146-169) as a frequency function: the
multiset of the texts of all Title, then NarrativeText, then Text elements
(`Counter` returns 0 for a missing key). -/
def prepare_counter (elements : List Element) : String → Nat := fun t =>
  (((elements.filter (fun e => decide (e.category = Category.Title))).map Element.text)
    ++ ((elements.filter (fun e => decide (e.category = Category.NarrativeText))).map Element.text)
    ++ ((elements.filter (fun e => decide (e.category = Category.Text))).map Element.text)).count t

/-- One iteration of the element loop of `create_parsed_dictionary`
(utils.py lines 220-274).  The Table branch's image extraction and
table-detection calls are external I/O whose outcome is the element's
`serviceResult`; the unconditional `output.png` cleanup is file I/O with no
effect on the returned dictionary and is not represented. -/
def processElement (all_counter : String → Nat) (s : AssemblerState) (el : Element) :
    Except PyErr AssemblerState :=
  match el.category with
  | Category.PageBreak =>
      Except.ok (AssemblerState.mk
        (dictSet s.parsed_doc ("page_" ++ toString (s.page_number + 1)) "")
        ("page_" ++ toString (s.page_number + 1))
        (s.page_number + 1))
  | Category.ListItem =>
      if all_counter el.text < 10 ∧ all_counter el.text ≠ 0 then do
        let d1 ← dictAppend s.parsed_doc s.curr_page el.text
        let d2 ← dictAppend d1 s.curr_page "\n"
        Except.ok (AssemblerState.mk d2 s.curr_page s.page_number)
      else Except.ok s
  | Category.NarrativeText =>
      if all_counter el.text < 10 ∧ all_counter el.text ≠ 0 then do
        let d1 ← dictAppend s.parsed_doc s.curr_page el.text
        let d2 ← dictAppend d1 s.curr_page " "
        Except.ok (AssemblerState.mk d2 s.curr_page s.page_number)
      else Except.ok s
  | Category.Table => do
      let d1 ← dictAppend s.parsed_doc s.curr_page "\n"
      let tables ← el.serviceResult
      let d2 ← tables.foldlM (fun d raws => do
          let cells ← parse_cells raws
          let frame ← create_expanded_dataframe cells
          let cleanedCols := frame.1.map cleanTextStr
          let cleanedRows := frame.2.map (fun rw => rw.map cleanTextStr)
          let dA ← dictAppend d s.curr_page (toMarkdown cleanedCols cleanedRows)
          dictAppend dA s.curr_page "\n") d1
      Except.ok (AssemblerState.mk d2 s.curr_page el.pageNumber)
  | Category.Text =>
      if all_counter el.text < 10 ∧ all_counter el.text ≠ 0 then do
        let d1 ← dictAppend s.parsed_doc s.curr_page el.text
        let d2 ← dictAppend d1 s.curr_page " "
        Except.ok (AssemblerState.mk d2 s.curr_page s.page_number)
      else Except.ok s
  | Category.Title =>
      if s.page_number = 1 then do
        let d1 ← dictAppend s.parsed_doc s.curr_page el.text
        let d2 ← dictAppend d1 s.curr_page "\n"
        Except.ok (AssemblerState.mk d2 s.curr_page s.page_number)
      else if all_counter el.text < 10 ∧ all_counter el.text ≠ 0 then do
        let d1 ← dictAppend s.parsed_doc s.curr_page el.text
        let d2 ← dictAppend d1 s.curr_page "\n"
        Except.ok (AssemblerState.mk d2 s.curr_page s.page_number)
      else Except.ok s

/-- The assembler's initial state: page number 1, current key `page_1`,
dictionary seeded with that single empty page. -/
def initState : AssemblerState := AssemblerState.mk [("page_1", "")] "page_1" 1

/-- The element loop of `create_parsed_dictionary`, before finalization. -/
def run_elements (all_counter : String → Nat) (elements : List Element) :
    Except PyErr AssemblerState :=
  elements.foldlM (processElement all_counter) initState

/-- `create_parsed_dictionary` (utils.py lines 193-278): run the element
loop from the initial state, then drop every page whose accumulated string
is empty (`{k:v for k,v in parsed_doc.items() if v}`). -/
def create_parsed_dictionary (elements : List Element) (all_counter : String → Nat) :
    Except PyErr (List (String × String)) :=
  (run_elements all_counter elements).map
    (fun s => s.parsed_doc.filter (fun kv => !(kv.2 = "")))

/-! ## Specification-side definitions -/

/-- The footprint predicate of claim C3: cell `cl` covers 0-based grid
position `(r, c)` when `(r, c) ∈ [row-1, row-1+rowspan) × [col-1, col-1+colspan)`. -/
def covers (cl : Cell) (r c : Nat) : Prop :=
  cl.row - 1 ≤ r ∧ r < cl.row - 1 + cl.rowspan ∧
  cl.col - 1 ≤ c ∧ c < cl.col - 1 + cl.colspan

instance (cl : Cell) (r c : Nat) : Decidable (covers cl r c) := by
  unfold covers; infer_instance

/-- Stated from the claim's words (C3): the text a grid position should
hold — the text of the last cell in input order whose footprint contains
the position, and the empty string when no footprint covers it. -/
def gridSpecLast (cells : List Cell) (r c : Nat) : String :=
  cells.foldl (fun acc cl => if covers cl r c then cl.text else acc) ""

/-- The entry of a grid at 0-based `(r, c)` (empty string off the grid). -/
def getRC (g : List (List String)) (r c : Nat) : String :=
  (g.getD r []).getD c ""

/-- Pure in-bounds double-indexed update, the effect of a successful
`table[i][j] = v`. -/
def set2 (g : List (List String)) (i j : Nat) (v : String) : List (List String) :=
  g.set i ((g.getD i []).set j v)

/-- Every row of the grid has length `n`. -/
def rowsLen (g : List (List String)) (n : Nat) : Prop := ∀ rw ∈ g, rw.length = n

/-- Grid dimensions: `m` rows, each of length `n`. -/
def gridDims (g : List (List String)) (m n : Nat) : Prop :=
  g.length = m ∧ rowsLen g n

/-- Pure model of `applyCell` when every write lands in bounds. -/
def applyCellPure (cl : Cell) (g : List (List String)) : List (List String) :=
  (List.range cl.rowspan).foldl (fun g r =>
    (List.range cl.colspan).foldl (fun g c =>
      set2 g (cl.row - 1 + r) (cl.col - 1 + c) cl.text) g) g

/-- A cell's footprint fits inside an `m × n` grid (for cells anchored at
positive coordinates). -/
def fitsIn (cl : Cell) (m n : Nat) : Prop :=
  cl.row - 1 + cl.rowspan ≤ m ∧ cl.col - 1 + cl.colspan ≤ n

instance (cl : Cell) (m n : Nat) : Decidable (fitsIn cl m n) := by
  unfold fitsIn; infer_instance

/-- The spec taxonomy's name (§7) for the failure `create_expanded_dataframe`
hits on an empty cell sequence: in the source it is the ValueError raised by
`max()` over an empty sequence. -/
def emptyTableError : PyErr := PyErr.valueError

/-- The state after appending `x` to the current page of `s` (the net effect
of the source's two consecutive `parsed_doc[curr_page] += …` statements). -/
def appendCur (s : AssemblerState) (x : String) : AssemblerState :=
  AssemblerState.mk
    (dictSet s.parsed_doc s.curr_page (((dictGet? s.parsed_doc s.curr_page).getD "") ++ x))
    s.curr_page s.page_number

/-! ## Concrete input streams used by individual claims -/

/-- A stream whose Table element's detection response contains one malformed
raw cell record (the regex in `parse_cells` does not match it). -/
def c1StreamMalformed : List Element :=
  [Element.mk Category.Text "A" 1 (Except.ok []),
   Element.mk Category.PageBreak "" 1 (Except.ok []),
   Element.mk Category.Table "" 2 (Except.ok [["garbage"]])]

/-- A stream whose Table element's external render/detect round trip fails. -/
def c1StreamSvcFail : List Element :=
  [Element.mk Category.Text "A" 1 (Except.ok []),
   Element.mk Category.Table "" 1 (Except.error PyErr.serviceError)]

/-- A stream in which a Table's `metadata.page_number` (1) is smaller than
the number of pages already created (2), so the following PageBreak
recreates the key `page_2`. -/
def c6Stream : List Element :=
  [Element.mk Category.Text "A" 1 (Except.ok []),
   Element.mk Category.PageBreak "" 1 (Except.ok []),
   Element.mk Category.Text "B" 1 (Except.ok []),
   Element.mk Category.Table "" 1 (Except.ok []),
   Element.mk Category.PageBreak "" 1 (Except.ok [])]

/-- The first four elements of `c6Stream`, up to just before the second
PageBreak. -/
def c6Prefix : List Element := c6Stream.take 4

/-- A stream producing one non-empty page and one empty page. -/
def c9Stream : List Element :=
  [Element.mk Category.Text "Hello" 1 (Except.ok []),
   Element.mk Category.PageBreak "" 1 (Except.ok [])]

/-! ## Dictionary lemmas -/

theorem dictGet?_dictSet_self (d : List (String × String)) (k v : String) :
    dictGet? (dictSet d k v) k = some v := by
  induction d with
  | nil => simp [dictSet, dictGet?]
  | cons hd tl ih =>
      obtain ⟨k', v'⟩ := hd
      by_cases h : k' = k
      · simp [dictSet, dictGet?, h]
      · simp [dictSet, dictGet?, h, ih]

theorem dictSet_dictSet (d : List (String × String)) (k v₁ v₂ : String) :
    dictSet (dictSet d k v₁) k v₂ = dictSet d k v₂ := by
  induction d with
  | nil => simp [dictSet]
  | cons hd tl ih =>
      obtain ⟨k', v'⟩ := hd
      by_cases h : k' = k
      · simp [dictSet, h]
      · simp [dictSet, h, ih]

theorem dictAppend_eq {d : List (String × String)} {k v : String} (x : String)
    (h : dictGet? d k = some v) :
    dictAppend d k x = Except.ok (dictSet d k (v ++ x)) := by
  unfold dictAppend
  rw [h]

theorem ok_bind {ε α β : Type} (a : α) (f : α → Except ε β) :
    (Except.ok a >>= f : Except ε β) = f a := rfl

theorem error_bind {ε α β : Type} (e : ε) (f : α → Except ε β) :
    (Except.error e >>= f : Except ε β) = Except.error e := rfl

/-! ## Claims about the Document Assembler's per-element transitions -/

/-- C4: on a Title element, the assembler appends the title's text plus a
trailing newline to the current page unconditionally when the running page
number is 1, and otherwise appends it (with trailing newline) exactly when
the title's text has a repetition count strictly between 0 and 10.  Stated
over one assembler transition, which covers every position of every element
stream. -/
theorem c4_title_filter (counter : String → Nat) (s : AssemblerState) (el : Element)
    (v : String)
    (hcat : el.category = Category.Title)
    (hv : dictGet? s.parsed_doc s.curr_page = some v) :
    (s.page_number = 1 →
      processElement counter s el = Except.ok (appendCur s (el.text ++ "\n"))) ∧
    (s.page_number ≠ 1 →
      (0 < counter el.text ∧ counter el.text < 10 →
        processElement counter s el = Except.ok (appendCur s (el.text ++ "\n"))) ∧
      (¬(0 < counter el.text ∧ counter el.text < 10) →
        processElement counter s el = Except.ok s)) := by
  refine ⟨fun h1 => ?_, fun hne => ⟨fun hpass => ?_, fun hfail => ?_⟩⟩
  · simp only [processElement, hcat, if_pos h1, dictAppend_eq el.text hv, ok_bind,
      dictAppend_eq "\n" (dictGet?_dictSet_self s.parsed_doc s.curr_page (v ++ el.text)),
      dictSet_dictSet]
    simp [appendCur, hv, String.append_assoc]
  · have hcond : counter el.text < 10 ∧ counter el.text ≠ 0 :=
      ⟨hpass.2, Nat.pos_iff_ne_zero.mp hpass.1⟩
    simp only [processElement, hcat, if_neg hne, if_pos hcond, dictAppend_eq el.text hv, ok_bind,
      dictAppend_eq "\n" (dictGet?_dictSet_self s.parsed_doc s.curr_page (v ++ el.text)),
      dictSet_dictSet]
    simp [appendCur, hv, String.append_assoc]
  · have hcond : ¬(counter el.text < 10 ∧ counter el.text ≠ 0) := fun hc =>
      hfail ⟨Nat.pos_of_ne_zero hc.2, hc.1⟩
    simp [processElement, hcat, if_neg hne, if_neg hcond]

/-- Witness for C4 at a concrete input: a Title on page 1 is appended with
its trailing newline. -/
theorem c4_title_filter_witness :
    processElement (fun _ => 0) initState (Element.mk Category.Title "T" 1 (Except.ok []))
      = Except.ok (appendCur initState ("T" ++ "\n")) :=
  (c4_title_filter (fun _ => 0) initState (Element.mk Category.Title "T" 1 (Except.ok [])) ""
    rfl rfl).1 rfl

/-- C5: on a ListItem, NarrativeText or Text element, the assembler appends
the element's text to the current page exactly when its repetition count is
at least 1 and strictly below 10 (ListItem with a trailing newline,
NarrativeText and Text with a trailing space); otherwise the state is
returned unchanged.  Stated over one assembler transition, which covers
every position of every element stream. -/
theorem c5_body_text_filter (counter : String → Nat) (s : AssemblerState) (el : Element)
    (v : String)
    (hv : dictGet? s.parsed_doc s.curr_page = some v) :
    (el.category = Category.ListItem →
      (0 < counter el.text ∧ counter el.text < 10 →
        processElement counter s el = Except.ok (appendCur s (el.text ++ "\n"))) ∧
      (¬(0 < counter el.text ∧ counter el.text < 10) →
        processElement counter s el = Except.ok s)) ∧
    (el.category = Category.NarrativeText →
      (0 < counter el.text ∧ counter el.text < 10 →
        processElement counter s el = Except.ok (appendCur s (el.text ++ " "))) ∧
      (¬(0 < counter el.text ∧ counter el.text < 10) →
        processElement counter s el = Except.ok s)) ∧
    (el.category = Category.Text →
      (0 < counter el.text ∧ counter el.text < 10 →
        processElement counter s el = Except.ok (appendCur s (el.text ++ " "))) ∧
      (¬(0 < counter el.text ∧ counter el.text < 10) →
        processElement counter s el = Except.ok s)) := by
  refine ⟨fun hcat => ⟨fun hpass => ?_, fun hfail => ?_⟩,
          fun hcat => ⟨fun hpass => ?_, fun hfail => ?_⟩,
          fun hcat => ⟨fun hpass => ?_, fun hfail => ?_⟩⟩ <;>
    first
      | (have hcond : counter el.text < 10 ∧ counter el.text ≠ 0 :=
            ⟨hpass.2, Nat.pos_iff_ne_zero.mp hpass.1⟩
         simp only [processElement, hcat, if_pos hcond, dictAppend_eq el.text hv, ok_bind,
           dictAppend_eq "\n" (dictGet?_dictSet_self s.parsed_doc s.curr_page (v ++ el.text)),
           dictAppend_eq " " (dictGet?_dictSet_self s.parsed_doc s.curr_page (v ++ el.text)),
           dictSet_dictSet]
         simp [appendCur, hv, String.append_assoc])
      | (have hcond : ¬(counter el.text < 10 ∧ counter el.text ≠ 0) := fun hc =>
            hfail ⟨Nat.pos_of_ne_zero hc.2, hc.1⟩
         simp [processElement, hcat, if_neg hcond])

/-- Witness for C5 at a concrete input: a ListItem whose text occurs 3
times is appended with a trailing newline. -/
theorem c5_body_text_filter_witness :
    processElement (fun _ => 3) initState (Element.mk Category.ListItem "item" 1 (Except.ok []))
      = Except.ok (appendCur initState ("item" ++ "\n")) :=
  ((c5_body_text_filter (fun _ => 3) initState
    (Element.mk Category.ListItem "item" 1 (Except.ok [])) "" rfl).1 rfl).1 (by decide)

/-- C6: a PageBreak always (re)binds the key `page_(n+1)` to the empty
string — overwriting any existing value — and in the concrete stream
`c6Stream`, where a Table's `metadata.page_number` drags the running page
number back down to 1, the second PageBreak recreates the existing key
`page_2` and erases the `"B \n"` previously accumulated there, so the
finalized document keeps only `page_1`. -/
theorem c6_pagebreak_reseeds :
    (∀ (counter : String → Nat) (s : AssemblerState) (el : Element),
      el.category = Category.PageBreak →
      processElement counter s el = Except.ok (AssemblerState.mk
        (dictSet s.parsed_doc ("page_" ++ toString (s.page_number + 1)) "")
        ("page_" ++ toString (s.page_number + 1)) (s.page_number + 1)) ∧
      dictGet? (dictSet s.parsed_doc ("page_" ++ toString (s.page_number + 1)) "")
        ("page_" ++ toString (s.page_number + 1)) = some "") ∧
    run_elements (prepare_counter c6Stream) c6Prefix = Except.ok
      (AssemblerState.mk [("page_1", "A "), ("page_2", "B \n")] "page_2" 1) ∧
    run_elements (prepare_counter c6Stream) c6Stream = Except.ok
      (AssemblerState.mk [("page_1", "A "), ("page_2", "")] "page_2" 2) ∧
    create_parsed_dictionary c6Stream (prepare_counter c6Stream) =
      Except.ok [("page_1", "A ")] := by
  refine ⟨fun counter s el hcat => ⟨?_, dictGet?_dictSet_self ..⟩, rfl, rfl, rfl⟩
  simp [processElement, hcat]

/-- Witness for C6 at a concrete input: a PageBreak from the initial state
seeds `page_2` with the empty string. -/
theorem c6_pagebreak_reseeds_witness :
    processElement (fun _ => 0) initState (Element.mk Category.PageBreak "" 1 (Except.ok []))
      = Except.ok (AssemblerState.mk
          (dictSet initState.parsed_doc ("page_" ++ toString (initState.page_number + 1)) "")
          ("page_" ++ toString (initState.page_number + 1)) (initState.page_number + 1)) :=
  (c6_pagebreak_reseeds.1 (fun _ => 0) initState
    (Element.mk Category.PageBreak "" 1 (Except.ok [])) rfl).1

/-- C8: grid expansion applied to the empty cell sequence fails (with the
ValueError raised by `max()` on an empty sequence, the failure the spec's
taxonomy names `EmptyTableError`); no grid is returned. -/
theorem c8_empty_cells_fail : expandGrid [] = Except.error emptyTableError := rfl

/-- C1 is refuted by the code: a malformed raw cell record inside one Table
element's detection response, or a failing external round trip, raises past
`create_parsed_dictionary` — the whole document conversion errors instead
of returning normally with the other pages intact. -/
theorem c1_failure_propagates :
    create_parsed_dictionary c1StreamMalformed (prepare_counter c1StreamMalformed)
      = Except.error PyErr.attributeError ∧
    create_parsed_dictionary c1StreamSvcFail (prepare_counter c1StreamSvcFail)
      = Except.error PyErr.serviceError := ⟨rfl, rfl⟩

/-- Counterexample to C2 as stated: the claim's own example cell
`{row:2, col:1, rowspan:3, colspan:1}` does not have its out-of-bounds rows
silently skipped — expansion raises an IndexError instead of succeeding. -/
theorem c2_counterexample :
    expandGrid [Cell.mk 2 1 3 1 "Y"] = Except.error PyErr.indexError := rfl

/-- Counterexample to C3 as stated: for the non-empty cell list
`[{row:1, col:1, rowspan:2, colspan:1}]` grid expansion produces no grid at
all — it raises an IndexError, because the footprint exceeds
`max_row = max(cell.row) = 1`. -/
theorem c3_counterexample :
    expandGrid [Cell.mk 1 1 2 1 "X"] = Except.error PyErr.indexError := rfl

/-- C9: the finalized document holds exactly the accumulated page entries
whose string is non-empty, each with the content it accumulated. -/
theorem c9_prune_empty_pages (els : List Element) (counter : String → Nat)
    (d : List (String × String))
    (h : create_parsed_dictionary els counter = Except.ok d) :
    ∃ s, run_elements counter els = Except.ok s ∧
      ∀ k v, ((k, v) ∈ d ↔ ((k, v) ∈ s.parsed_doc ∧ v ≠ "")) := by
  unfold create_parsed_dictionary at h
  cases hrun : run_elements counter els with
  | error e => rw [hrun] at h; exact absurd h (by simp [Except.map])
  | ok s =>
      rw [hrun] at h
      simp only [Except.map, Except.ok.injEq] at h
      refine ⟨s, rfl, fun k v => ?_⟩
      rw [← h]
      simp [List.mem_filter]

/-- Witness for C9 at a concrete input: the empty `page_2` produced by a
trailing PageBreak is pruned, `page_1` keeps its content. -/
theorem c9_prune_empty_pages_witness :
    ∃ s, run_elements (prepare_counter c9Stream) c9Stream = Except.ok s ∧
      ∀ k v, ((k, v) ∈ ([("page_1", "Hello ")] : List (String × String)) ↔
        ((k, v) ∈ s.parsed_doc ∧ v ≠ "")) :=
  c9_prune_empty_pages c9Stream (prepare_counter c9Stream) [("page_1", "Hello ")] rfl

/-- C10: the repetition counter is built only from Title, Text and
NarrativeText elements, so a ListItem whose text never occurs as the text
of any such element has count 0 and its processing leaves the assembler
state (hence every page) unchanged. -/
theorem c10_listitem_unseen_text (els : List Element) (s : AssemblerState) (el : Element)
    (hcat : el.category = Category.ListItem)
    (hforeign : ∀ e ∈ els,
      (e.category = Category.Title ∨ e.category = Category.Text ∨
        e.category = Category.NarrativeText) → e.text ≠ el.text) :
    prepare_counter els el.text = 0 ∧
    processElement (prepare_counter els) s el = Except.ok s := by
  have hzero : prepare_counter els el.text = 0 := by
    unfold prepare_counter
    rw [List.count_eq_zero]
    intro hmem
    rcases List.mem_append.mp hmem with h12 | h3
    · rcases List.mem_append.mp h12 with h1 | h2
      · obtain ⟨e, he, ht⟩ := List.mem_map.mp h1
        obtain ⟨hin, hc⟩ := List.mem_filter.mp he
        exact hforeign e hin (Or.inl (of_decide_eq_true hc)) ht
      · obtain ⟨e, he, ht⟩ := List.mem_map.mp h2
        obtain ⟨hin, hc⟩ := List.mem_filter.mp he
        exact hforeign e hin (Or.inr (Or.inr (of_decide_eq_true hc))) ht
    · obtain ⟨e, he, ht⟩ := List.mem_map.mp h3
      obtain ⟨hin, hc⟩ := List.mem_filter.mp he
      exact hforeign e hin (Or.inr (Or.inl (of_decide_eq_true hc))) ht
  have hcond : ¬(prepare_counter els el.text < 10 ∧ prepare_counter els el.text ≠ 0) := by
    rw [hzero]; simp
  exact ⟨hzero, by simp [processElement, hcat, if_neg hcond]⟩

/-- Witness for C10 at a concrete input: a ListItem with text "L" in a
document whose only counted element is a Title with text "T". -/
theorem c10_listitem_unseen_text_witness :
    prepare_counter [Element.mk Category.Title "T" 1 (Except.ok [])] "L" = 0 ∧
    processElement (prepare_counter [Element.mk Category.Title "T" 1 (Except.ok [])]) initState
      (Element.mk Category.ListItem "L" 1 (Except.ok [])) = Except.ok initState :=
  c10_listitem_unseen_text [Element.mk Category.Title "T" 1 (Except.ok [])] initState
    (Element.mk Category.ListItem "L" 1 (Except.ok [])) rfl (by decide)

/-! ## List helper lemmas for the grid proofs -/

theorem getD_set {α : Type} (l : List α) (i r : Nat) (v d : α) :
    (l.set i v).getD r d = if i = r ∧ i < l.length then v else l.getD r d := by
  induction l generalizing i r with
  | nil => simp
  | cons a t ih =>
      cases i with
      | zero =>
          cases r with
          | zero => simp
          | succ r' => simp
      | succ i' =>
          cases r with
          | zero => simp
          | succ r' =>
              simp only [List.set_cons_succ, List.getD_cons_succ, List.length_cons]
              rw [ih]
              exact if_congr (by omega) rfl rfl

theorem set_of_length_le {α : Type} (l : List α) (i : Nat) (v : α) (h : l.length ≤ i) :
    l.set i v = l := by
  induction l generalizing i with
  | nil => simp
  | cons a t ih =>
      cases i with
      | zero => simp at h
      | succ i' =>
          simp only [List.set_cons_succ]
          rw [ih i' (by simp at h; omega)]

theorem mem_set_cases {α : Type} (l : List α) (i : Nat) (v x : α) (h : x ∈ l.set i v) :
    x = v ∨ x ∈ l := by
  induction l generalizing i with
  | nil => simp at h
  | cons a t ih =>
      cases i with
      | zero =>
          rw [List.set_cons_zero] at h
          rcases List.mem_cons.mp h with h | h
          · exact Or.inl h
          · exact Or.inr (List.mem_cons_of_mem a h)
      | succ i' =>
          rw [List.set_cons_succ] at h
          rcases List.mem_cons.mp h with h | h
          · exact Or.inr (h ▸ List.mem_cons_self a t)
          · rcases ih i' h with h | h
            · exact Or.inl h
            · exact Or.inr (List.mem_cons_of_mem a h)

theorem getD_mem_of_lt {α : Type} (l : List α) (i : Nat) (d : α) (h : i < l.length) :
    l.getD i d ∈ l := by
  induction l generalizing i with
  | nil => simp at h
  | cons a t ih =>
      cases i with
      | zero => simp
      | succ i' =>
          simp only [List.getD_cons_succ]
          exact List.mem_cons_of_mem a (ih i' (by simp at h; omega))

theorem getD_replicate_lt {α : Type} (n i : Nat) (a d : α) (h : i < n) :
    (List.replicate n a).getD i d = a := by
  induction n generalizing i with
  | zero => omega
  | succ n ih =>
      cases i with
      | zero => simp [List.replicate]
      | succ i' => simp only [List.replicate, List.getD_cons_succ]; exact ih i' (by omega)

/-! ## Grid write lemmas -/

theorem gridDims_set2 (g : List (List String)) (M N i j : Nat) (v : String)
    (hd : gridDims g M N) : gridDims (set2 g i j v) M N := by
  obtain ⟨hl, hr⟩ := hd
  by_cases hi : i < g.length
  · constructor
    · simp [set2, hl]
    · intro rw hmem
      rcases mem_set_cases _ _ _ _ hmem with h | h
      · subst h
        have : (g.getD i []).length = N := hr _ (getD_mem_of_lt g i [] hi)
        rw [List.length_set]
        exact this
      · exact hr _ h
  · unfold set2
    rw [set_of_length_le _ _ _ (by omega)]
    exact ⟨hl, hr⟩

theorem getRC_set2 (g : List (List String)) (i j : Nat) (v : String)
    (h₁ : i < g.length) (h₂ : j < (g.getD i []).length) (r c : Nat) :
    getRC (set2 g i j v) r c = if r = i ∧ c = j then v else getRC g r c := by
  unfold getRC set2
  rw [getD_set]
  by_cases hri : r = i
  · subst hri
    rw [if_pos ⟨rfl, h₁⟩, getD_set]
    by_cases hcj : c = j
    · subst hcj
      rw [if_pos ⟨rfl, h₂⟩, if_pos ⟨rfl, rfl⟩]
    · rw [if_neg (fun hc => hcj hc.1.symm), if_neg (fun hc => hcj hc.2)]
  · rw [if_neg (fun hc => hri hc.1.symm), if_neg (fun hc => hri hc.1)]

theorem pyIndex_natCast_lt (n i : Nat) (h : i < n) : pyIndex n (i : Int) = some i := by
  unfold pyIndex
  rw [if_pos (by omega)]
  simp

theorem pyIndex_errors (n i : Nat) (h : pyIndex n (i : Int) ≠ none) : i < n := by
  by_contra hge
  apply h
  unfold pyIndex
  rw [if_neg (by omega), if_neg (by omega)]

theorem pySet2_ok (g : List (List String)) (M N : Nat) (hd : gridDims g M N)
    (i j : Nat) (v : String) (hi : i < M) (hj : j < N) :
    pySet2 g (i : Int) (j : Int) v = Except.ok (set2 g i j v) := by
  obtain ⟨hl, hr⟩ := hd
  have hig : i < g.length := by omega
  have hrowlen : (g.getD i []).length = N := hr _ (getD_mem_of_lt g i [] hig)
  unfold pySet2 pyListGet pyListSet
  rw [pyIndex_natCast_lt g.length i hig, ok_bind, pyIndex_natCast_lt _ j (by omega), ok_bind]
  rfl

/-! ## Generic `foldlM` lemmas over `Except` -/

theorem foldlM_eq_foldl {α β : Type} (P : α → Prop) (f : α → β → Except PyErr α)
    (fp : α → β → α) (l : List β) (a : α) (hP : P a)
    (h : ∀ x b, P x → b ∈ l → f x b = Except.ok (fp x b) ∧ P (fp x b)) :
    l.foldlM f a = Except.ok (l.foldl fp a) ∧ P (l.foldl fp a) := by
  induction l generalizing a with
  | nil => exact ⟨rfl, hP⟩
  | cons b t ih =>
      obtain ⟨hok, hPb⟩ := h a b hP (List.mem_cons_self b t)
      have step : (b :: t).foldlM f a = t.foldlM f (fp a b) := by
        rw [List.foldlM_cons, hok, ok_bind]
      rw [step, List.foldl_cons]
      exact ih (fp a b) hPb (fun x c hx hc => h x c hx (List.mem_cons_of_mem b hc))

theorem foldlM_error_ex {α β : Type} (f : α → β → Except PyErr α) (l : List β)
    (a : α) (e : PyErr) (h : l.foldlM f a = Except.error e) :
    ∃ x b, b ∈ l ∧ f x b = Except.error e := by
  induction l generalizing a with
  | nil => simp [List.foldlM_nil] at h; cases h
  | cons b t ih =>
      rw [List.foldlM_cons] at h
      cases hf : f a b with
      | error e' =>
          rw [hf, error_bind] at h
          cases h
          exact ⟨a, b, List.mem_cons_self b t, hf⟩
      | ok a' =>
          rw [hf, ok_bind] at h
          obtain ⟨x, c, hc, hfc⟩ := ih a' h
          exact ⟨x, c, List.mem_cons_of_mem b hc, hfc⟩

theorem foldlM_ok_pres {α β : Type} (P : α → Prop) (f : α → β → Except PyErr α)
    (l : List β) (a b : α) (hP : P a)
    (hpres : ∀ x y r, y ∈ l → P x → f x y = Except.ok r → P r)
    (h : l.foldlM f a = Except.ok b) : P b := by
  induction l generalizing a with
  | nil => simp [List.foldlM_nil] at h; cases h; exact hP
  | cons y t ih =>
      rw [List.foldlM_cons] at h
      cases hf : f a y with
      | error e => rw [hf, error_bind] at h; cases h
      | ok a' =>
          rw [hf, ok_bind] at h
          exact ih a' (hpres a y a' (List.mem_cons_self y t) hP hf)
            (fun x z r hz hx hfz => hpres x z r (List.mem_cons_of_mem y hz) hx hfz) h

theorem foldlM_ok_elem {α β : Type} (P : α → Prop) (f : α → β → Except PyErr α)
    (l : List β) (a b : α) (hP : P a)
    (hpres : ∀ x y r, y ∈ l → P x → f x y = Except.ok r → P r)
    (h : l.foldlM f a = Except.ok b) :
    ∀ y ∈ l, ∃ x r, P x ∧ f x y = Except.ok r := by
  induction l generalizing a with
  | nil => intro y hy; simp at hy
  | cons z t ih =>
      rw [List.foldlM_cons] at h
      cases hf : f a z with
      | error e => rw [hf, error_bind] at h; cases h
      | ok a' =>
          rw [hf, ok_bind] at h
          intro y hy
          rcases List.mem_cons.mp hy with hy | hy
          · exact ⟨a, a', hP, hy ▸ hf⟩
          · exact ih a' (hpres a z a' (List.mem_cons_self z t) hP hf)
              (fun x w r hw hx hfw => hpres x w r (List.mem_cons_of_mem z hw) hx hfw) h y hy

/-! ## The effect of one cell's double write loop -/

theorem foldl_cols_spec (i col0 : Nat) (v : String) (M N : Nat)
    (hi : i < M) (n : Nat) (hn : col0 + n ≤ N)
    (g : List (List String)) (hd : gridDims g M N) :
    gridDims ((List.range n).foldl (fun g c => set2 g i (col0 + c) v) g) M N ∧
    ∀ r c, getRC ((List.range n).foldl (fun g c => set2 g i (col0 + c) v) g) r c =
      if r = i ∧ col0 ≤ c ∧ c < col0 + n then v else getRC g r c := by
  induction n with
  | zero =>
      refine ⟨by simpa using hd, fun r c => ?_⟩
      rw [List.range_zero, List.foldl_nil, if_neg (by omega)]
  | succ n ih =>
      obtain ⟨ihd, ihrc⟩ := ih (by omega)
      rw [List.range_succ, List.foldl_append, List.foldl_cons, List.foldl_nil]
      have hlen : i < ((List.range n).foldl (fun g c => set2 g i (col0 + c) v) g).length := by
        rw [ihd.1]; exact hi
      have hrowN : (((List.range n).foldl (fun g c => set2 g i (col0 + c) v) g).getD i []).length = N :=
        ihd.2 _ (getD_mem_of_lt _ i [] hlen)
      refine ⟨gridDims_set2 _ M N _ _ _ ihd, fun r c => ?_⟩
      rw [getRC_set2 _ i (col0 + n) v hlen (by omega), ihrc r c]
      split_ifs <;> first | rfl | omega

theorem foldl_rows_spec (row0 col0 : Nat) (v : String) (M N : Nat) (ncols : Nat)
    (hcols : col0 + ncols ≤ N) (n : Nat) (hn : row0 + n ≤ M)
    (g : List (List String)) (hd : gridDims g M N) :
    gridDims ((List.range n).foldl (fun g r =>
      (List.range ncols).foldl (fun g c => set2 g (row0 + r) (col0 + c) v) g) g) M N ∧
    ∀ r c, getRC ((List.range n).foldl (fun g r =>
        (List.range ncols).foldl (fun g c => set2 g (row0 + r) (col0 + c) v) g) g) r c =
      if row0 ≤ r ∧ r < row0 + n ∧ col0 ≤ c ∧ c < col0 + ncols then v
      else getRC g r c := by
  induction n with
  | zero =>
      refine ⟨by simpa using hd, fun r c => ?_⟩
      rw [List.range_zero, List.foldl_nil, if_neg (by omega)]
  | succ n ih =>
      obtain ⟨ihd, ihrc⟩ := ih (by omega)
      rw [List.range_succ, List.foldl_append, List.foldl_cons, List.foldl_nil]
      obtain ⟨stepd, steprc⟩ :=
        foldl_cols_spec (row0 + n) col0 v M N (by omega) ncols hcols _ ihd
      refine ⟨stepd, fun r c => ?_⟩
      rw [steprc r c, ihrc r c]
      split_ifs <;> first | rfl | omega

theorem applyCellPure_spec (cl : Cell) (M N : Nat)
    (hfitr : cl.row - 1 + cl.rowspan ≤ M) (hfitc : cl.col - 1 + cl.colspan ≤ N)
    (g : List (List String)) (hd : gridDims g M N) :
    gridDims (applyCellPure cl g) M N ∧
    ∀ r c, getRC (applyCellPure cl g) r c =
      if covers cl r c then cl.text else getRC g r c := by
  obtain ⟨hdm, hrc⟩ := foldl_rows_spec (cl.row - 1) (cl.col - 1) cl.text M N
    cl.colspan hfitc cl.rowspan hfitr g hd
  refine ⟨hdm, fun r c => ?_⟩
  rw [applyCellPure, hrc r c]
  exact if_congr (by unfold covers; exact Iff.rfl) rfl rfl

theorem applyCell_eq_pure (cl : Cell) (M N : Nat)
    (hrow : 1 ≤ cl.row) (hcol : 1 ≤ cl.col)
    (hfitr : cl.row - 1 + cl.rowspan ≤ M) (hfitc : cl.col - 1 + cl.colspan ≤ N)
    (g : List (List String)) (hd : gridDims g M N) :
    applyCell cl g = Except.ok (applyCellPure cl g) := by
  unfold applyCell applyCellPure
  refine (foldlM_eq_foldl (fun x => gridDims x M N) _ _ (List.range cl.rowspan) g hd
    (fun x r hx hr => ?_)).1
  have hrlt : r < cl.rowspan := List.mem_range.mp hr
  refine foldlM_eq_foldl (fun y => gridDims y M N) _ _ (List.range cl.colspan) x hx
    (fun y c hy hc => ?_)
  have hclt : c < cl.colspan := List.mem_range.mp hc
  have e1 : (cl.row : Int) - 1 + (r : Int) = ((cl.row - 1 + r : Nat) : Int) := by omega
  have e2 : (cl.col : Int) - 1 + (c : Int) = ((cl.col - 1 + c : Nat) : Int) := by omega
  rw [e1, e2]
  exact ⟨pySet2_ok y M N hy (cl.row - 1 + r) (cl.col - 1 + c) cl.text (by omega) (by omega),
    gridDims_set2 y M N _ _ _ hy⟩

theorem getRC_foldl_cells (cells : List Cell) (M N : Nat)
    (g0 : List (List String)) (hd : gridDims g0 M N)
    (h : ∀ cl ∈ cells, cl.row - 1 + cl.rowspan ≤ M ∧ cl.col - 1 + cl.colspan ≤ N)
    (r c : Nat) :
    getRC (cells.foldl (fun g cl => applyCellPure cl g) g0) r c =
      cells.foldl (fun acc cl => if covers cl r c then cl.text else acc) (getRC g0 r c) := by
  induction cells generalizing g0 with
  | nil => rfl
  | cons cl t ih =>
      rw [List.foldl_cons, List.foldl_cons]
      obtain ⟨f1, f2⟩ := h cl (List.mem_cons_self cl t)
      obtain ⟨hdm, hrc⟩ := applyCellPure_spec cl M N f1 f2 g0 hd
      rw [ih _ hdm (fun x hx => h x (List.mem_cons_of_mem _ hx)), hrc r c]

/-- C3 corrected: for every non-empty list of cells anchored at positive
coordinates whose footprints all fit inside the
`max(cell.row) × max(cell.col)` bounding box, grid expansion succeeds and
produces a grid of exactly `max_row` rows and `max_col` columns in which
each position `(r, c)` holds the text of the last cell in input order whose
footprint contains it, and the empty string when no footprint covers it.
The unamended claim, quantified over all non-empty cell lists, is refuted
by `c3_counterexample`: a footprint leaving the bounding box aborts
expansion with an IndexError. -/
theorem c3_amended_expansion (cells : List Cell) (hne : cells ≠ [])
    (hpos : ∀ cl ∈ cells, 1 ≤ cl.row ∧ 1 ≤ cl.col)
    (hfit : ∀ cl ∈ cells, fitsIn cl (maxRow cells) (maxCol cells)) :
    ∃ g, expandGrid cells = Except.ok g ∧
      g.length = maxRow cells ∧ (∀ rw ∈ g, rw.length = maxCol cells) ∧
      ∀ r c, r < maxRow cells → c < maxCol cells →
        getRC g r c = gridSpecLast cells r c := by
  have hinit : gridDims (List.replicate (maxRow cells) (List.replicate (maxCol cells) ""))
      (maxRow cells) (maxCol cells) := by
    constructor
    · exact List.length_replicate _ _
    · intro rw hmem
      rw [List.eq_of_mem_replicate hmem]
      exact List.length_replicate _ _
  have main := foldlM_eq_foldl (fun x => gridDims x (maxRow cells) (maxCol cells))
    (fun g cl => applyCell cl g) (fun g cl => applyCellPure cl g)
    cells (List.replicate (maxRow cells) (List.replicate (maxCol cells) "")) hinit
    (fun x cl hx hcl => by
      obtain ⟨h1, h2⟩ := hpos cl hcl
      obtain ⟨f1, f2⟩ := hfit cl hcl
      exact ⟨applyCell_eq_pure cl _ _ h1 h2 f1 f2 x hx,
        (applyCellPure_spec cl _ _ f1 f2 x hx).1⟩)
  have hexp : expandGrid cells =
      cells.foldlM (fun g cl => applyCell cl g)
        (List.replicate (maxRow cells) (List.replicate (maxCol cells) "")) := by
    cases cells with
    | nil => exact absurd rfl hne
    | cons a t => rfl
  refine ⟨_, by rw [hexp]; exact main.1, main.2.1, main.2.2, ?_⟩
  intro r c hr hc
  have hval := getRC_foldl_cells cells (maxRow cells) (maxCol cells) _ hinit
    (fun cl hcl => hfit cl hcl) r c
  rw [hval]
  have h0 : getRC (List.replicate (maxRow cells) (List.replicate (maxCol cells) "")) r c
      = "" := by
    unfold getRC
    rw [getD_replicate_lt _ _ _ _ hr, getD_replicate_lt _ _ _ _ hc]
  rw [h0]
  rfl

/-- Witness for the amended C3 at the spec's end-to-end 2-by-2 example. -/
theorem c3_amended_expansion_witness :
    ∃ g, expandGrid [Cell.mk 1 1 1 1 "Name", Cell.mk 1 2 1 1 "Age",
        Cell.mk 2 1 1 1 "Ann", Cell.mk 2 2 1 1 "30"] = Except.ok g ∧
      g.length = maxRow [Cell.mk 1 1 1 1 "Name", Cell.mk 1 2 1 1 "Age",
        Cell.mk 2 1 1 1 "Ann", Cell.mk 2 2 1 1 "30"] ∧
      (∀ rw ∈ g, rw.length = maxCol [Cell.mk 1 1 1 1 "Name", Cell.mk 1 2 1 1 "Age",
        Cell.mk 2 1 1 1 "Ann", Cell.mk 2 2 1 1 "30"]) ∧
      ∀ r c, r < maxRow [Cell.mk 1 1 1 1 "Name", Cell.mk 1 2 1 1 "Age",
          Cell.mk 2 1 1 1 "Ann", Cell.mk 2 2 1 1 "30"] →
        c < maxCol [Cell.mk 1 1 1 1 "Name", Cell.mk 1 2 1 1 "Age",
          Cell.mk 2 1 1 1 "Ann", Cell.mk 2 2 1 1 "30"] →
        getRC g r c = gridSpecLast [Cell.mk 1 1 1 1 "Name", Cell.mk 1 2 1 1 "Age",
          Cell.mk 2 1 1 1 "Ann", Cell.mk 2 2 1 1 "30"] r c :=
  c3_amended_expansion
    [Cell.mk 1 1 1 1 "Name", Cell.mk 1 2 1 1 "Age",
     Cell.mk 2 1 1 1 "Ann", Cell.mk 2 2 1 1 "30"]
    (by decide) (by decide) (by decide)

/-! ## Out-of-bounds writes raise IndexError -/

theorem pyListGet_error {α : Type} (l : List α) (i : Int) (d : α) (e : PyErr)
    (h : pyListGet l i d = Except.error e) : e = PyErr.indexError := by
  unfold pyListGet at h
  cases h1 : pyIndex l.length i with
  | some k => rw [h1] at h; exact Except.noConfusion h
  | none => rw [h1] at h; injection h with h; exact h.symm

theorem pyListSet_error {α : Type} (l : List α) (i : Int) (v : α) (e : PyErr)
    (h : pyListSet l i v = Except.error e) : e = PyErr.indexError := by
  unfold pyListSet at h
  cases h1 : pyIndex l.length i with
  | some k => rw [h1] at h; exact Except.noConfusion h
  | none => rw [h1] at h; injection h with h; exact h.symm

theorem pySet2_error_eq (g : List (List String)) (i j : Int) (v : String) (e : PyErr)
    (h : pySet2 g i j v = Except.error e) : e = PyErr.indexError := by
  unfold pySet2 at h
  cases h1 : pyListGet g i ([] : List String) with
  | error e1 =>
      rw [h1, error_bind] at h
      injection h with h
      exact h ▸ pyListGet_error g i [] e1 h1
  | ok rw1 =>
      rw [h1, ok_bind] at h
      cases h2 : pyListSet rw1 j v with
      | error e2 =>
          rw [h2, error_bind] at h
          injection h with h
          exact h ▸ pyListSet_error rw1 j v e2 h2
      | ok rw2 =>
          rw [h2, ok_bind] at h
          exact pyListSet_error g i rw2 e h

theorem applyCell_error (cl : Cell) (g : List (List String)) (e : PyErr)
    (h : applyCell cl g = Except.error e) : e = PyErr.indexError := by
  unfold applyCell at h
  obtain ⟨x, r, _, hx⟩ := foldlM_error_ex _ _ _ _ h
  obtain ⟨y, c, _, hy⟩ := foldlM_error_ex _ _ _ _ hx
  exact pySet2_error_eq _ _ _ _ _ hy

theorem expandGrid_error (cells : List Cell) (hne : cells ≠ []) (e : PyErr)
    (h : expandGrid cells = Except.error e) : e = PyErr.indexError := by
  cases cells with
  | nil => exact absurd rfl hne
  | cons a t =>
      obtain ⟨x, cl, _, hx⟩ := foldlM_error_ex _ _ _ _ h
      exact applyCell_error _ _ _ hx

theorem pySet2_row_oob (g : List (List String)) (M N : Nat) (hd : gridDims g M N)
    (i j : Nat) (v : String) (hi : M ≤ i) :
    pySet2 g (i : Int) (j : Int) v = Except.error PyErr.indexError := by
  obtain ⟨hl, _⟩ := hd
  have h1 : pyIndex g.length (i : Int) = none := by
    unfold pyIndex
    rw [if_neg (by omega), if_neg (by omega)]
  unfold pySet2 pyListGet
  rw [h1]
  rfl

theorem pySet2_col_oob (g : List (List String)) (M N : Nat) (hd : gridDims g M N)
    (i j : Nat) (v : String) (hi : i < M) (hj : N ≤ j) :
    pySet2 g (i : Int) (j : Int) v = Except.error PyErr.indexError := by
  obtain ⟨hl, hr⟩ := hd
  have hrowlen : (g.getD i []).length = N := hr _ (getD_mem_of_lt g i [] (by omega))
  have h2 : pyIndex (g.getD i []).length (j : Int) = none := by
    unfold pyIndex
    rw [if_neg (by omega), if_neg (by omega)]
  unfold pySet2 pyListGet pyListSet
  rw [pyIndex_natCast_lt g.length i (by omega), ok_bind, h2]
  rfl

theorem pySet2_ok_bounds (g : List (List String)) (M N : Nat) (hd : gridDims g M N)
    (i j : Nat) (v : String) (g' : List (List String))
    (h : pySet2 g (i : Int) (j : Int) v = Except.ok g') : i < M ∧ j < N := by
  by_cases hi : i < M
  · by_cases hj : j < N
    · exact ⟨hi, hj⟩
    · rw [pySet2_col_oob g M N hd i j v hi (by omega)] at h
      exact Except.noConfusion h
  · rw [pySet2_row_oob g M N hd i j v (by omega)] at h
    exact Except.noConfusion h

theorem pySet2_ok_dims (g : List (List String)) (M N : Nat) (hd : gridDims g M N)
    (i j : Nat) (v : String) (g' : List (List String))
    (h : pySet2 g (i : Int) (j : Int) v = Except.ok g') : gridDims g' M N := by
  obtain ⟨hi, hj⟩ := pySet2_ok_bounds g M N hd i j v g' h
  rw [pySet2_ok g M N hd i j v hi hj] at h
  injection h with h
  exact h ▸ gridDims_set2 g M N i j v hd

theorem applyCell_ok_dims (cl : Cell) (M N : Nat)
    (hrow : 1 ≤ cl.row) (hcol : 1 ≤ cl.col) (g g' : List (List String))
    (hd : gridDims g M N) (h : applyCell cl g = Except.ok g') : gridDims g' M N := by
  unfold applyCell at h
  refine foldlM_ok_pres (fun x => gridDims x M N) _ _ _ _ hd (fun x r x' _ hx hfr => ?_) h
  refine foldlM_ok_pres (fun y => gridDims y M N) _ _ _ _ hx (fun y c y' _ hy hfc => ?_) hfr
  have e1 : (cl.row : Int) - 1 + (r : Int) = ((cl.row - 1 + r : Nat) : Int) := by omega
  have e2 : (cl.col : Int) - 1 + (c : Int) = ((cl.col - 1 + c : Nat) : Int) := by omega
  rw [e1, e2] at hfc
  exact pySet2_ok_dims y M N hy _ _ _ _ hfc

theorem applyCell_ok_fits (cl : Cell) (M N : Nat)
    (hrow : 1 ≤ cl.row) (hcol : 1 ≤ cl.col)
    (hrs : 1 ≤ cl.rowspan) (hcs : 1 ≤ cl.colspan)
    (g g' : List (List String)) (hd : gridDims g M N)
    (h : applyCell cl g = Except.ok g') : fitsIn cl M N := by
  unfold applyCell at h
  have hpresInner : ∀ (r : Nat) (y : List (List String)) (c : Nat) (y' : List (List String)),
      c ∈ List.range cl.colspan → gridDims y M N →
      pySet2 y ((cl.row : Int) - 1 + (r : Int)) ((cl.col : Int) - 1 + (c : Int)) cl.text
        = Except.ok y' → gridDims y' M N := by
    intro r y c y' _ hy hfc
    have e1 : (cl.row : Int) - 1 + (r : Int) = ((cl.row - 1 + r : Nat) : Int) := by omega
    have e2 : (cl.col : Int) - 1 + (c : Int) = ((cl.col - 1 + c : Nat) : Int) := by omega
    rw [e1, e2] at hfc
    exact pySet2_ok_dims y M N hy _ _ _ _ hfc
  have houter := foldlM_ok_elem (fun x => gridDims x M N) _ (List.range cl.rowspan) g g' hd
    (fun x r x' _ hx hfr =>
      foldlM_ok_pres (fun y => gridDims y M N) _ _ _ _ hx
        (fun y c y' hc hy hfc => hpresInner r y c y' hc hy hfc) hfr) h
  obtain ⟨x, x', hx, hxr⟩ := houter (cl.rowspan - 1) (List.mem_range.mpr (by omega))
  have hinner := foldlM_ok_elem (fun y => gridDims y M N) _ (List.range cl.colspan) x x' hx
    (fun y c y' hc hy hfc => hpresInner (cl.rowspan - 1) y c y' hc hy hfc) hxr
  obtain ⟨y, y', hy, hyc⟩ := hinner (cl.colspan - 1) (List.mem_range.mpr (by omega))
  have e1 : (cl.row : Int) - 1 + ((cl.rowspan - 1 : Nat) : Int)
      = ((cl.row - 1 + (cl.rowspan - 1) : Nat) : Int) := by omega
  have e2 : (cl.col : Int) - 1 + ((cl.colspan - 1 : Nat) : Int)
      = ((cl.col - 1 + (cl.colspan - 1) : Nat) : Int) := by omega
  rw [e1, e2] at hyc
  obtain ⟨b1, b2⟩ := pySet2_ok_bounds y M N hy _ _ _ _ hyc
  exact ⟨by omega, by omega⟩

theorem expandGrid_ok_fits (cells : List Cell) (g : List (List String))
    (hinv : ∀ cl ∈ cells, 1 ≤ cl.row ∧ 1 ≤ cl.col ∧ 1 ≤ cl.rowspan ∧ 1 ≤ cl.colspan)
    (h : expandGrid cells = Except.ok g) :
    ∀ cl ∈ cells, fitsIn cl (maxRow cells) (maxCol cells) := by
  cases cells with
  | nil => intro cl hcl; simp at hcl
  | cons a t =>
      have hinit : gridDims
          (List.replicate (maxRow (a :: t)) (List.replicate (maxCol (a :: t)) ""))
          (maxRow (a :: t)) (maxCol (a :: t)) := by
        constructor
        · exact List.length_replicate _ _
        · intro rw hmem
          rw [List.eq_of_mem_replicate hmem]
          exact List.length_replicate _ _
      have hpres : ∀ x cl x', cl ∈ a :: t → gridDims x (maxRow (a :: t)) (maxCol (a :: t)) →
          applyCell cl x = Except.ok x' → gridDims x' (maxRow (a :: t)) (maxCol (a :: t)) := by
        intro x cl x' hcl hx hfx
        obtain ⟨h1, h2, _, _⟩ := hinv cl hcl
        exact applyCell_ok_dims cl _ _ h1 h2 x x' hx hfx
      have helem := foldlM_ok_elem (fun x => gridDims x (maxRow (a :: t)) (maxCol (a :: t)))
        (fun g cl => applyCell cl g) (a :: t) _ g hinit hpres h
      intro cl hcl
      obtain ⟨x, x', hx, hxcl⟩ := helem cl hcl
      obtain ⟨h1, h2, h3, h4⟩ := hinv cl hcl
      exact applyCell_ok_fits cl _ _ h1 h2 h3 h4 x x' hx hxcl

/-- C2 corrected: grid expansion does not skip footprint positions outside
`[0, max_row) × [0, max_col)` — for every non-empty cell list with positive
anchors and spans, as soon as any cell's footprint leaves the bounding box
the whole expansion aborts with an IndexError instead of succeeding; in
particular a cell anchored at the last row whose rowspan exceeds the
remaining rows makes expansion fail.  The unamended claim is refuted by
`c2_counterexample` on the claim's own example cell. -/
theorem c2_amended_oob_write_errors (cells : List Cell) (hne : cells ≠ [])
    (hinv : ∀ cl ∈ cells, 1 ≤ cl.row ∧ 1 ≤ cl.col ∧ 1 ≤ cl.rowspan ∧ 1 ≤ cl.colspan)
    (hbad : ∃ cl ∈ cells, ¬ fitsIn cl (maxRow cells) (maxCol cells)) :
    expandGrid cells = Except.error PyErr.indexError := by
  obtain ⟨cl, hcl, hnf⟩ := hbad
  cases hexp : expandGrid cells with
  | ok g => exact absurd (expandGrid_ok_fits cells g hinv hexp cl hcl) hnf
  | error e => rw [expandGrid_error cells hne e hexp]

/-- Witness for the amended C2: a single cell whose colspan overruns the
bounding box makes expansion raise an IndexError. -/
theorem c2_amended_oob_write_errors_witness :
    expandGrid [Cell.mk 1 2 1 2 "Z"] = Except.error PyErr.indexError :=
  c2_amended_oob_write_errors [Cell.mk 1 2 1 2 "Z"] (by decide) (by decide) (by decide)

/-! ## Idempotence of the text normalizer -/

theorem pySplitAux_tokens (l : List Char) : ∀ acc, (∀ c ∈ acc, pyIsSpace c = false) →
    ∀ t ∈ pySplitAux l acc, t ≠ [] ∧ ∀ c ∈ t, pyIsSpace c = false := by
  induction l with
  | nil =>
      intro acc hacc t ht
      unfold pySplitAux at ht
      by_cases h : acc.isEmpty
      · rw [if_pos h] at ht; simp at ht
      · rw [if_neg h] at ht
        have ht' : t = acc.reverse := by simpa using ht
        subst ht'
        refine ⟨fun hrev => h ?_, fun c hc => hacc c (List.mem_reverse.mp hc)⟩
        have : acc = [] := by simpa using congrArg List.reverse hrev
        simp [this]
  | cons a l ih =>
      intro acc hacc t ht
      unfold pySplitAux at ht
      by_cases hsp : pyIsSpace a
      · rw [if_pos hsp] at ht
        by_cases hacc0 : acc.isEmpty
        · rw [if_pos hacc0] at ht
          exact ih [] (by simp) t ht
        · rw [if_neg hacc0] at ht
          rcases List.mem_cons.mp ht with h | h
          · subst h
            refine ⟨fun hrev => hacc0 ?_, fun c hc => hacc c (List.mem_reverse.mp hc)⟩
            have : acc = [] := by simpa using congrArg List.reverse hrev
            simp [this]
          · exact ih [] (by simp) t h
      · rw [if_neg hsp] at ht
        refine ih (a :: acc) (fun c hc => ?_) t ht
        rcases List.mem_cons.mp hc with h | h
        · subst h; exact Bool.not_eq_true _ ▸ (by simpa using hsp)
        · exact hacc c h

theorem pySplitAux_cons_nonspace (a : Char) (cs acc : List Char) (ha : pyIsSpace a = false) :
    pySplitAux (a :: cs) acc = pySplitAux cs (a :: acc) := by
  conv_lhs => rw [pySplitAux]
  rw [if_neg (by simp [ha])]

theorem pySplitAux_cons_space (a : Char) (cs acc : List Char) (ha : pyIsSpace a = true) :
    pySplitAux (a :: cs) acc =
      if acc.isEmpty then pySplitAux cs [] else acc.reverse :: pySplitAux cs [] := by
  conv_lhs => rw [pySplitAux]
  rw [if_pos (by simp [ha])]

theorem pySplitAux_token_prefix (t : List Char) (hts : ∀ c ∈ t, pyIsSpace c = false) :
    ∀ (l acc : List Char), pySplitAux (t ++ l) acc = pySplitAux l (t.reverse ++ acc) := by
  induction t with
  | nil => intro l acc; simp
  | cons a t ih =>
      intro l acc
      have ha : pyIsSpace a = false := hts a (List.mem_cons_self a t)
      show pySplitAux (a :: (t ++ l)) acc = _
      rw [pySplitAux_cons_nonspace a (t ++ l) acc ha,
        ih (fun c hc => hts c (List.mem_cons_of_mem a hc)) l (a :: acc)]
      congr 1
      simp

theorem pySplit_pyJoin (ts : List (List Char))
    (h : ∀ t ∈ ts, t ≠ [] ∧ ∀ c ∈ t, pyIsSpace c = false) :
    pySplit (pyJoin ts) = ts := by
  induction ts with
  | nil => rfl
  | cons t ts ih =>
      obtain ⟨hne, hsf⟩ := h t (List.mem_cons_self t ts)
      cases ts with
      | nil =>
          show pySplitAux (pyJoin [t]) [] = [t]
          have hj : pyJoin [t] = t ++ [] := by simp [pyJoin]
          rw [hj, pySplitAux_token_prefix t hsf [] []]
          conv_lhs => rw [pySplitAux]
          rw [if_neg (by simpa using hne)]
          simp
      | cons t2 ts2 =>
          show pySplitAux (pyJoin (t :: t2 :: ts2)) [] = t :: t2 :: ts2
          have hj : pyJoin (t :: t2 :: ts2) = t ++ ' ' :: pyJoin (t2 :: ts2) := rfl
          rw [hj, pySplitAux_token_prefix t hsf _ [],
            pySplitAux_cons_space ' ' _ _ rfl,
            if_neg (by simpa using hne)]
          simp only [List.append_nil, List.reverse_reverse]
          exact congrArg (t :: ·) (ih (fun u hu => h u (List.mem_cons_of_mem t hu)))

theorem replaceNl_noNl (l : List Char) : (∀ c ∈ l, c ≠ '\n') → replaceNl l = l := by
  induction l with
  | nil => intro _; rfl
  | cons a t ih =>
      intro h
      show (if a = '\n' then ' ' else a) :: replaceNl t = a :: t
      rw [if_neg (h a (List.mem_cons_self a t)), ih (fun c hc => h c (List.mem_cons_of_mem a hc))]

theorem pyJoin_chars (ts : List (List Char))
    (h : ∀ t ∈ ts, ∀ c ∈ t, pyIsSpace c = false) :
    ∀ c ∈ pyJoin ts, c = ' ' ∨ pyIsSpace c = false := by
  induction ts with
  | nil => intro c hc; simp [pyJoin] at hc
  | cons t ts ih =>
      cases ts with
      | nil =>
          intro c hc
          exact Or.inr (h t (List.mem_cons_self t []) c hc)
      | cons t2 ts2 =>
          intro c hc
          have hc' : c ∈ t ++ ' ' :: pyJoin (t2 :: ts2) := hc
          rcases List.mem_append.mp hc' with h1 | h1
          · exact Or.inr (h t (List.mem_cons_self t (t2 :: ts2)) c h1)
          · rcases List.mem_cons.mp h1 with h2 | h2
            · exact Or.inl h2
            · exact ih (fun u hu => h u (List.mem_cons_of_mem t hu)) c h2

theorem replaceNl_pyJoin (ts : List (List Char))
    (h : ∀ t ∈ ts, ∀ c ∈ t, pyIsSpace c = false) :
    replaceNl (pyJoin ts) = pyJoin ts := by
  refine replaceNl_noNl _ (fun c hc he => ?_)
  rcases pyJoin_chars ts h c hc with h1 | h1
  · rw [he] at h1
    exact absurd h1 (by decide)
  · rw [he] at h1
    exact absurd h1 (by decide)

theorem dropWhile_eq_self_of_head (l : List Char)
    (h : ∀ c, l.head? = some c → pyIsSpace c = false) :
    l.dropWhile pyIsSpace = l := by
  cases l with
  | nil => rfl
  | cons a t => rw [List.dropWhile_cons, if_neg (by simp [h a rfl])]

theorem mem_of_getLast?_eq {α : Type} (l : List α) (c : α) (h : l.getLast? = some c) :
    c ∈ l := by
  induction l with
  | nil => simp at h
  | cons a t ih =>
      cases t with
      | nil =>
          have : a = c := by simpa using h
          simp [this]
      | cons b t2 =>
          rw [List.getLast?_cons_cons] at h
          exact List.mem_cons_of_mem a (ih h)

theorem getLast?_append_cons {α : Type} (l₁ : List α) (a : α) (l₂ : List α) :
    (l₁ ++ a :: l₂).getLast? = (a :: l₂).getLast? := by
  induction l₁ with
  | nil => rfl
  | cons b t ih =>
      rw [List.cons_append]
      cases hE : t ++ a :: l₂ with
      | nil => exact absurd hE (by simp)
      | cons x xs =>
          rw [List.getLast?_cons_cons, ← hE, ih]

theorem pyJoin_ne_nil (t : List Char) (ts : List (List Char)) (hne : t ≠ []) :
    pyJoin (t :: ts) ≠ [] := by
  cases ts with
  | nil => exact hne
  | cons t2 ts2 =>
      show t ++ ' ' :: pyJoin (t2 :: ts2) ≠ []
      simp

theorem pyJoin_head? (t : List Char) (ts : List (List Char)) (hne : t ≠ []) :
    (pyJoin (t :: ts)).head? = t.head? := by
  cases ts with
  | nil => rfl
  | cons t2 ts2 =>
      show (t ++ ' ' :: pyJoin (t2 :: ts2)).head? = t.head?
      cases t with
      | nil => exact absurd rfl hne
      | cons a t' => rfl

theorem pyJoin_getLast?_spacefree (ts : List (List Char))
    (h : ∀ t ∈ ts, t ≠ [] ∧ ∀ c ∈ t, pyIsSpace c = false) :
    ∀ c, (pyJoin ts).getLast? = some c → pyIsSpace c = false := by
  induction ts with
  | nil => intro c hc; exact Option.noConfusion hc
  | cons t ts ih =>
      intro c hc
      cases ts with
      | nil =>
          obtain ⟨_, hsf⟩ := h t (List.mem_cons_self t [])
          exact hsf c (mem_of_getLast?_eq t c hc)
      | cons t2 ts2 =>
          have hc' : (t ++ ' ' :: pyJoin (t2 :: ts2)).getLast? = some c := hc
          rw [getLast?_append_cons] at hc'
          obtain ⟨hne2, _⟩ := h t2 (List.mem_cons_of_mem t (List.mem_cons_self t2 ts2))
          cases hE : pyJoin (t2 :: ts2) with
          | nil => exact absurd hE (pyJoin_ne_nil t2 ts2 hne2)
          | cons x xs =>
              rw [hE, List.getLast?_cons_cons] at hc'
              exact ih (fun u hu => h u (List.mem_cons_of_mem t hu)) c (by rw [hE]; exact hc')

theorem pyStrip_eq_self (l : List Char)
    (hh : ∀ c, l.head? = some c → pyIsSpace c = false)
    (hl : ∀ c, l.getLast? = some c → pyIsSpace c = false) :
    pyStrip l = l := by
  unfold pyStrip
  rw [dropWhile_eq_self_of_head l hh,
    dropWhile_eq_self_of_head l.reverse (fun c hc => hl c (by rwa [List.head?_reverse] at hc))]
  exact List.reverse_reverse l

theorem pyStrip_pyJoin (ts : List (List Char))
    (h : ∀ t ∈ ts, t ≠ [] ∧ ∀ c ∈ t, pyIsSpace c = false) :
    pyStrip (pyJoin ts) = pyJoin ts := by
  cases ts with
  | nil => rfl
  | cons t ts' =>
      obtain ⟨hne, hsf⟩ := h t (List.mem_cons_self t ts')
      refine pyStrip_eq_self _ (fun c hc => ?_) (pyJoin_getLast?_spacefree _ h)
      rw [pyJoin_head? t ts' hne] at hc
      cases tE : t with
      | nil => exact absurd tE hne
      | cons a t'' =>
          rw [tE] at hc
          have hac : a = c := by simpa using hc
          exact hac ▸ hsf a (by rw [tE]; exact List.mem_cons_self a t'')

theorem cleanChars_idem (l : List Char) : cleanChars (cleanChars l) = cleanChars l := by
  have htok : ∀ t ∈ pySplit (replaceNl l), t ≠ [] ∧ ∀ c ∈ t, pyIsSpace c = false :=
    pySplitAux_tokens (replaceNl l) [] (by simp)
  have h1 : cleanChars l = pyJoin (pySplit (replaceNl l)) := by
    unfold cleanChars
    exact pyStrip_pyJoin _ htok
  rw [h1]
  have h2 : cleanChars (pyJoin (pySplit (replaceNl l)))
      = pyJoin (pySplit (replaceNl (pyJoin (pySplit (replaceNl l))))) := by
    unfold cleanChars
    exact pyStrip_pyJoin _ (pySplitAux_tokens _ [] (by simp))
  rw [h2,
    replaceNl_pyJoin (pySplit (replaceNl l)) (fun t ht => (htok t ht).2),
    pySplit_pyJoin (pySplit (replaceNl l)) htok]

/-- C7: the text normalizer `clean_text` is idempotent — on strings,
normalizing a normalized string changes nothing, and non-string input
passes through unchanged, so applying `clean_text` twice equals applying it
once on every input. -/
theorem c7_clean_text_idempotent {α : Type} (x : PyVal α) :
    clean_text (clean_text x) = clean_text x := by
  cases x with
  | other a => rfl
  | str s =>
      show PyVal.str (String.mk (cleanChars (cleanChars s.data)))
        = PyVal.str (String.mk (cleanChars s.data))
      rw [cleanChars_idem]
